import Mathlib

/-!
# Verification of the aegis request router against its specification

The repository ships a deploy CLI (`cmd/deploy.go`) and a request-routing
framework (package `framework`).  The framework's router, middleware
pipeline and protocol adapter are exercised by `router_test.go`; the
router implementation itself is not among the available sources, so those
components are modelled from the specification (each such definition says
so in its doc comment).  `stripLamdaVersionFromArn` is embedded directly
from `cmd/deploy.go`.
-/

set_option autoImplicit false

namespace Aegis

/-! ## Association lists

The Go code keys children and method tables by `map[string]`; we model the
maps as association lists where registration order is observable (the spec
says the method mapping of a node accumulates one entry per registered
verb). -/

/-- Look up the value bound to key `k`. -/
def lookupAssoc {α : Type} (k : String) : List (String × α) → Option α
  | [] => none
  | (k', v) :: rest => if k' = k then some v else lookupAssoc k rest

/-- Bind key `k` to `v`, replacing an existing binding in place and
appending a fresh binding at the end otherwise (Go map insert, with
insertion order kept observable). -/
def setAssoc {α : Type} (k : String) (v : α) : List (String × α) → List (String × α)
  | [] => [(k, v)]
  | (k', v') :: rest => if k' = k then (k, v) :: rest else (k', v') :: setAssoc k v rest

theorem lookupAssoc_setAssoc_self {α : Type} (k : String) (v : α) (l : List (String × α)) :
    lookupAssoc k (setAssoc k v l) = some v := by
  induction l with
  | nil => simp [setAssoc, lookupAssoc]
  | cons hd tl ih =>
    obtain ⟨k', v'⟩ := hd
    by_cases h : k' = k
    · simp [setAssoc, lookupAssoc, h]
    · simp [setAssoc, lookupAssoc, h, ih]

theorem setAssoc_setAssoc_self {α : Type} (k : String) (v₁ v₂ : α) (l : List (String × α)) :
    setAssoc k v₂ (setAssoc k v₁ l) = setAssoc k v₂ l := by
  induction l with
  | nil => simp [setAssoc]
  | cons hd tl ih =>
    obtain ⟨k', v'⟩ := hd
    by_cases h : k' = k
    · simp [setAssoc, h]
    · simp [setAssoc, h, ih]

/-! ## Path tree (trie)

Modelled from the spec: the router implementation (`router.go`) is not in
the available sources, only its test.  §3 of the spec: a node owns a
mapping from HTTP verb to terminal handler (with the route's middleware
stored alongside, §3 "Route"), any number of static children keyed by
exact literal, at most one named-parameter child and at most one wildcard
child. -/

/-- A registered route: terminal handler plus the ordered route-scoped
middleware stored alongside it (spec §3 "Route"). -/
structure Route (H M : Type) where
  handler : H
  middleware : List M
  deriving DecidableEq

/-- A path-tree node.  `H` is the terminal-handler type, `M` the
middleware type; both are opaque to the tree. -/
inductive Node (H M : Type) : Type where
  | mk (staticChildren : List (String × Node H M))
       (paramChild : Option (String × Node H M))
       (wildChild : Option (Node H M))
       (methods : List (String × Route H M))

/-- The static children, keyed by exact segment literal. -/
def Node.staticChildren {H M : Type} : Node H M → List (String × Node H M)
  | .mk s _ _ _ => s

/-- The single named-parameter child, together with the bound parameter
name (sigil already stripped). -/
def Node.paramChild {H M : Type} : Node H M → Option (String × Node H M)
  | .mk _ p _ _ => p

/-- The single wildcard child. -/
def Node.wildChild {H M : Type} : Node H M → Option (Node H M)
  | .mk _ _ w _ => w

/-- The verb → route mapping of the node. -/
def Node.methods {H M : Type} : Node H M → List (String × Route H M)
  | .mk _ _ _ m => m

/-- A node with no children and no registered methods. -/
def emptyNode {H M : Type} : Node H M := .mk [] none none []

/-- Split a character list at every occurrence of `sep`. -/
def splitOnSep (sep : Char) : List Char → List (List Char)
  | [] => [[]]
  | c :: rest =>
    match splitOnSep sep rest with
    | [] => [[]]
    | cur :: parts => if c = sep then [] :: cur :: parts else (c :: cur) :: parts

/-- A segment beginning with the parameter sigil `:` names a parameter. -/
def isParamSeg (seg : String) : Bool :=
  match seg.data with
  | c :: _ => c = ':'
  | [] => false

/-- A segment equal to the wildcard sigil `*`. -/
def isWildSeg (seg : String) : Bool := seg = "*"

/-- The parameter name bound by a `:name` segment: the segment with the
sigil stripped. -/
def paramName (seg : String) : String := String.mk (seg.data.drop 1)

/-- Join path segments back together with the separator. -/
def joinPath (l : List String) : String := String.mk (List.intercalate ['/'] (l.map String.data))

/-- Modelled from the spec (§4.1 `insert`, the implementation is not in
the available sources): walk the pattern's segments; a literal ensures a
static child with that exact label (created if absent), a `:name` segment
ensures the single named-parameter child (creating it binds the name), the
wildcard sigil ensures the single wildcard child and terminates the
pattern (no further segments are indexed beneath it).  At the final node
the route is registered under `method`, overwriting any previous
registration for that verb. -/
def insertAux {H M : Type} (method : String) (r : Route H M) :
    List String → Node H M → Node H M
  | [], n => .mk n.staticChildren n.paramChild n.wildChild (setAssoc method r n.methods)
  | seg :: rest, n =>
    if isWildSeg seg then
      let child := n.wildChild.getD emptyNode
      .mk n.staticChildren n.paramChild
        (some (.mk child.staticChildren child.paramChild child.wildChild
          (setAssoc method r child.methods)))
        n.methods
    else if isParamSeg seg then
      match n.paramChild with
      | some (name, child) =>
          .mk n.staticChildren (some (name, insertAux method r rest child)) n.wildChild n.methods
      | none =>
          .mk n.staticChildren (some (paramName seg, insertAux method r rest emptyNode))
            n.wildChild n.methods
    else
      let child := (lookupAssoc seg n.staticChildren).getD emptyNode
      .mk (setAssoc seg (insertAux method r rest child) n.staticChildren)
        n.paramChild n.wildChild n.methods

/-- Modelled from the spec (§4.1 `traverse`): walk from the root; at each
node try the static children first (exact label match), then the single
named-parameter child (capturing the segment under the bound name), then
the wildcard child (capturing the remaining path as a single parameter —
the spec leaves the wildcard's parameter name unspecified, `*` is used
here — and terminating the walk).  The spec describes a single committed
walk ("on no match, `parameters` reflects only captures made before the
path diverged"), so no backtracking across child kinds is performed.
Returns the matched node and the captured parameters, or `none`. -/
def traverse {H M : Type} :
    Node H M → List String → List (String × String) →
      Option (Node H M × List (String × String))
  | n, [], ps => some (n, ps)
  | n, seg :: rest, ps =>
    match lookupAssoc seg n.staticChildren with
    | some c => traverse c rest ps
    | none =>
      match n.paramChild with
      | some pc => traverse pc.2 rest (ps ++ [(pc.1, seg)])
      | none =>
        match n.wildChild with
        | some c => some (c, ps ++ [("*", joinPath (seg :: rest))])
        | none => none

/-- Split a path on the separator and drop the leading empty segment, as
the test does with `strings.Split(path, "/")[1:]`. -/
def splitPath (p : String) : List String :=
  ((splitOnSep '/' p.data).map (fun l => String.mk l)).drop 1

/-! ## Middleware pipeline and router

Modelled from the spec (§4.2, §4.3) and the test file: the router
implementation is not in the available sources.  In Go a handler takes
`(ctx, deps, req, res, params)` and mutates the shared request/response
through pointers; we collapse the shared mutable state `(ctx, deps, req,
res)` into a state value `S` threaded through the pipeline, and keep the
captured parameters as an explicit argument.  A middleware returns the
updated state together with the continue/halt boolean; a terminal handler
returns the updated state. -/

/-- Captured path parameters: ordered name/value pairs. -/
abbrev Params := List (String × String)

/-- A terminal handler: mutates the shared state. -/
abbrev Handler (S : Type) := Params → S → S

/-- A middleware: mutates the shared state and returns `true` to continue
to the next unit, `false` to halt the chain immediately without error. -/
abbrev Middleware (S : Type) := Params → S → S × Bool

/-- Modelled from the spec (§4.3) and the test of `runMiddleware`: execute
the units strictly in order; a unit returning `false` halts the chain
immediately, and the pipeline reports `false`; if every unit returns
`true` the pipeline reports `true`.  The state is threaded through the
units so a later unit observes every mutation made by an earlier one. -/
def runMiddleware {S : Type} (ps : Params) (s : S) :
    List (Middleware S) → S × Bool
  | [] => (s, true)
  | mw :: rest =>
    let r := mw ps s
    if r.2 then runMiddleware ps r.1 rest else (r.1, false)

/-- Run a middleware chain and, only if it completes without halting, the
terminal handler (the tail of the dispatch algorithm, spec §4.2). -/
def runChain {S : Type} (ps : Params) (s : S) (mws : List (Middleware S))
    (h : Handler S) : S :=
  let r := runMiddleware ps s mws
  if r.2 then h ps r.1 else r.1

/-- Modelled from the spec (§4.2 Router): the router owns the path tree,
the global middleware list and the designated fallthrough handler. -/
structure Router (S : Type) where
  tree : Node (Handler S) (Middleware S)
  middleware : List (Middleware S)
  fallThroughHandler : Handler S

/-- Modelled from the spec: `NewRouter(fallthroughHandler)` constructs an
empty tree with a designated terminal handler used when no path
matches. -/
def NewRouter {S : Type} (fallthrough : Handler S) : Router S :=
  ⟨emptyNode, [], fallthrough⟩

/-- Modelled from the spec: `Use(middleware)` appends to the router's
global middleware list. -/
def Router.Use {S : Type} (r : Router S) (mw : Middleware S) : Router S :=
  { r with middleware := r.middleware ++ [mw] }

/-- Per-verb registration: forward to `insert` with the verb fixed,
storing the route-scoped middleware alongside the handler (spec §4.2). -/
def Router.handle {S : Type} (r : Router S) (method p : String) (h : Handler S)
    (mws : List (Middleware S)) : Router S :=
  { r with tree := insertAux method ⟨h, mws⟩ (splitPath p) r.tree }

/-- `GET` registration. -/
def Router.GET {S : Type} (r : Router S) (p : String) (h : Handler S)
    (mws : List (Middleware S) := []) : Router S := r.handle "GET" p h mws

/-- `POST` registration. -/
def Router.POST {S : Type} (r : Router S) (p : String) (h : Handler S)
    (mws : List (Middleware S) := []) : Router S := r.handle "POST" p h mws

/-- `PUT` registration. -/
def Router.PUT {S : Type} (r : Router S) (p : String) (h : Handler S)
    (mws : List (Middleware S) := []) : Router S := r.handle "PUT" p h mws

/-- `PATCH` registration. -/
def Router.PATCH {S : Type} (r : Router S) (p : String) (h : Handler S)
    (mws : List (Middleware S) := []) : Router S := r.handle "PATCH" p h mws

/-- `DELETE` registration. -/
def Router.DELETE {S : Type} (r : Router S) (p : String) (h : Handler S)
    (mws : List (Middleware S) := []) : Router S := r.handle "DELETE" p h mws

/-- `HEAD` registration. -/
def Router.HEAD {S : Type} (r : Router S) (p : String) (h : Handler S)
    (mws : List (Middleware S) := []) : Router S := r.handle "HEAD" p h mws

/-- `OPTIONS` registration. -/
def Router.OPTIONS {S : Type} (r : Router S) (p : String) (h : Handler S)
    (mws : List (Middleware S) := []) : Router S := r.handle "OPTIONS" p h mws

/-- The outcome of a dispatch: the final state after the fallthrough
handler, a halted chain or a completed chain (all non-errors), or the
distinct method-not-allowed condition (spec §7(b)). -/
inductive DispatchResult (S : Type) : Type where
  | ok (s : S)
  | methodNotAllowed
  deriving DecidableEq

/-- Modelled from the spec (§4.2 dispatch): split the path, traverse; on
no match invoke the fallthrough handler directly (no middleware) and
return its result; on a match without a handler for the verb surface the
method-not-allowed condition; otherwise run global middleware followed by
the route's middleware as one chain and, if it completes, the terminal
handler, all on the shared state with the captured parameters. -/
def Router.dispatch {S : Type} (r : Router S) (method p : String) (s : S) :
    DispatchResult S :=
  match traverse r.tree (splitPath p) [] with
  | none => .ok (r.fallThroughHandler [] s)
  | some (n, ps) =>
    match lookupAssoc method n.methods with
    | none => .methodNotAllowed
    | some route => .ok (runChain ps s (r.middleware ++ route.middleware) route.handler)

/-! ## Protocol adapter

Modelled from the spec (§4.4, §6) and the adapter test: the
`gatewayHandler` implementation is not in the available sources.  A raw
socket-level request is modelled with its method, path, raw query string,
multi-valued header lines and fully-read body. -/

/-- A socket-level HTTP request as the adapter sees it. -/
structure RawRequest where
  method : String
  path : String
  query : String
  headers : List (String × List String)
  body : String

/-- The structured request model (spec §6). -/
structure APIGatewayProxyRequest where
  method : String
  path : String
  headers : List (String × String)
  multiValueHeaders : List (String × List String)
  queryStringParameters : List (String × String)
  pathParameters : List (String × String)
  body : String
  isBase64Encoded : Bool
  deriving DecidableEq

/-- The structured response model (spec §6). -/
structure APIGatewayProxyResponse where
  statusCode : Nat
  headers : List (String × String)
  body : String
  isBase64Encoded : Bool
  deriving DecidableEq

/-- Decode one `key=value` query component at the first `=`; a component
without `=` yields the key with an empty value (spec §7: malformed values
yield empty entries rather than aborting). -/
def parseQueryPart (part : List Char) : String × String :=
  let key := part.takeWhile (fun c => c ≠ '=')
  (String.mk key, String.mk ((part.drop key.length).drop 1))

/-- Decode a raw query string: split on `&`, skip empty components, and
keep the occurrences in order. -/
def parseQuery (q : String) : List (String × String) :=
  ((splitOnSep '&' q.data).filter (fun part => ¬ part.isEmpty)).map parseQueryPart

/-- Collapse ordered occurrences into a mapping where the last occurrence
of a name wins (spec §4.4). -/
def lastWins (l : List (String × String)) : List (String × String) :=
  l.foldl (fun acc kv => setAssoc kv.1 kv.2 acc) []

/-- Modelled from the spec (§4.4 `toStructuredRequest`): method and path
verbatim; header names flattened to a single-value mapping (the spec
leaves the flattening of a repeated header unspecified; the first value is
taken) while the multi-value mapping is preserved; the query string
decoded with last occurrence winning; the body fully read; no base64
transformation on the socket path. -/
def requestToProxyRequest (r : RawRequest) : APIGatewayProxyRequest where
  method := r.method
  path := r.path
  headers := r.headers.map (fun kv => (kv.1, kv.2.headD ""))
  multiValueHeaders := r.headers
  queryStringParameters := lastWins (parseQuery r.query)
  pathParameters := []
  body := r.body
  isBase64Encoded := false

/-- One write observed by the raw response sink. -/
inductive WriteEvent : Type where
  | status (code : Nat)
  | header (key value : String)
  | bodyChunk (chunk : String)
  deriving DecidableEq

/-- Modelled from the spec (§4.4 `fromStructuredResponse`): the sequence
of writes the adapter performs on the raw response sink — the status code
first, then every header key/value pair, then the body bytes, in that
order. -/
def proxyResponseToHTTPResponse (res : APIGatewayProxyResponse) : List WriteEvent :=
  WriteEvent.status res.statusCode ::
    (res.headers.map (fun kv => WriteEvent.header kv.1 kv.2) ++
      [WriteEvent.bodyChunk res.body])

/-- What a recording sink (like `httptest.NewRecorder`) ends up with
after replaying a sequence of writes. -/
structure RecordedResponse where
  code : Nat
  headers : List (String × String)
  bodyText : String
  deriving DecidableEq

/-- Replay a write sequence into a recording sink. -/
def replayWrites (events : List WriteEvent) : RecordedResponse :=
  events.foldl
    (fun r e =>
      match e with
      | .status c => { r with code := c }
      | .header k v => { r with headers := setAssoc k v r.headers }
      | .bodyChunk b => { r with bodyText := r.bodyText ++ b })
    ⟨0, [], ""⟩

/-- `true` iff a write sequence is exactly one status write, then zero or
more header writes, then one body write — headers strictly between the
status and the body. -/
def headersThenBody : List WriteEvent → Bool
  | [WriteEvent.bodyChunk _] => true
  | WriteEvent.header _ _ :: rest => headersThenBody rest
  | _ => false

/-- `true` iff the sequence starts with the status write and then
satisfies `headersThenBody`. -/
def statusHeadersBody : List WriteEvent → Bool
  | WriteEvent.status _ :: rest => headersThenBody rest
  | _ => false

/-! ## `stripLamdaVersionFromArn` (cmd/deploy.go)

Embedded from the source.  The Go function compiles the regular
expression

  `arn:aws:lambda:(.+):([0-9]+):function:([A-z0-9\-\_]+)($|:[0-9]+)`

and runs `FindStringSubmatch`; when it yields the full five-element match
the three leading capture groups are kept, otherwise all components stay
empty; either way the result is rebuilt as
`"arn:aws:lambda:" ++ region ++ ":" ++ accountID ++ ":function:" ++ functionName`.

The matcher below is a faithful specialisation of Go's leftmost-first
(Perl-style) backtracking semantics to this one pattern: starting
positions are tried left to right; greedy repetitions try longer runs
first; the alternation `($|:[0-9]+)` tries `$` (end of text) first; `.`
matches every character except the newline; `[A-z]` is the ASCII range
65–122 (it includes the six punctuation characters between `Z` and
`a`). -/

/-- `[0-9]` of the pattern. -/
def isDigitCh (c : Char) : Bool := 48 ≤ c.toNat && c.toNat ≤ 57

/-- `[A-z0-9\-\_]` of the pattern (ASCII 65–122, digits, `-`, `_`). -/
def isClassCh (c : Char) : Bool :=
  (65 ≤ c.toNat && c.toNat ≤ 122) || isDigitCh c || c = '-' || c = '_'

/-- `.` of the pattern: any character except newline. -/
def isDotCh (c : Char) : Bool := c ≠ '\n'

/-- The four capture groups of the Lambda-ARN pattern, as character
lists. -/
structure ArnGroups where
  region : List Char
  accountID : List Char
  functionName : List Char
  functionVersion : List Char
  deriving DecidableEq

/-- The literal `arn:aws:lambda:` opening the pattern. -/
def litArn : List Char :=
  ['a', 'r', 'n', ':', 'a', 'w', 's', ':', 'l', 'a', 'm', 'b', 'd', 'a', ':']

/-- Drop the literal `lit` from the head of `l`, or fail. -/
def dropLit : List Char → List Char → Option (List Char)
  | [], l => some l
  | _ :: _, [] => none
  | c :: cs, x :: xs => if x = c then dropLit cs xs else none

/-- Group 4, `($|:[0-9]+)`: end of text (preferred alternative), or `:`
followed by a greedy nonempty digit run. -/
def phase4 : List Char → Option (List Char)
  | [] => some []
  | c :: rest =>
    if c = ':' then
      let ds := rest.takeWhile isDigitCh
      if ds.isEmpty then none else some (':' :: ds)
    else none

/-- Group 3, `[A-z0-9\-\_]+`, greedy: try run lengths `k+1` downwards,
then group 4 on the remainder. -/
def try3 (l : List Char) : Nat → Option (List Char × List Char)
  | 0 => none
  | k + 1 =>
    match phase4 (l.drop (k + 1)) with
    | some g4 => some (l.take (k + 1), g4)
    | none => try3 l k

/-- Group 3 starting from the maximal class run. -/
def phase3 (l : List Char) : Option (List Char × List Char) :=
  try3 l (l.takeWhile isClassCh).length

/-- The literal `:function:` following group 2. -/
def litFunction : List Char := [':', 'f', 'u', 'n', 'c', 't', 'i', 'o', 'n', ':']

/-- Group 2, `[0-9]+`, greedy, then the literal `:function:`, then group
3. -/
def try2 (l : List Char) : Nat → Option (List Char × List Char × List Char)
  | 0 => none
  | k + 1 =>
    match dropLit litFunction (l.drop (k + 1)) with
    | some rest =>
      match phase3 rest with
      | some (g3, g4) => some (l.take (k + 1), g3, g4)
      | none => try2 l k
    | none => try2 l k

/-- Group 2 starting from the maximal digit run. -/
def phase2 (l : List Char) : Option (List Char × List Char × List Char) :=
  try2 l (l.takeWhile isDigitCh).length

/-- The `:` separating group 1 from group 2: succeeds iff the character
at position `k` is `:`, returning what follows it. -/
def step1 (l : List Char) (k : Nat) : Option (List Char) :=
  match l.drop k with
  | c :: rest => if c = ':' then some rest else none
  | [] => none

/-- Group 1, `(.+)`, greedy, then `:`, then group 2. -/
def try1 (l : List Char) : Nat → Option ArnGroups
  | 0 => none
  | k + 1 =>
    match step1 l (k + 1) with
    | some rest =>
      match phase2 rest with
      | some (g2, g3, g4) => some ⟨l.take (k + 1), g2, g3, g4⟩
      | none => try1 l k
    | none => try1 l k

/-- Match the pattern at one starting position: the literal
`arn:aws:lambda:`, then the four groups. -/
def matchHere (l : List Char) : Option ArnGroups :=
  match dropLit litArn l with
  | some rest => try1 rest (rest.takeWhile isDotCh).length
  | none => none

/-- `FindStringSubmatch`: try starting positions left to right, first
success wins. -/
def scanMatch : List Char → Option ArnGroups
  | [] => none
  | c :: rest =>
    match matchHere (c :: rest) with
    | some g => some g
    | none => scanMatch rest

/-- Embedded from `cmd/deploy.go` `stripLamdaVersionFromArn`: run the
Lambda-ARN regex; on a full match keep the region, account-ID and
function-name groups, otherwise leave all three empty; rebuild the ARN
without the version qualifier. -/
def stripLamdaVersionFromArn (lambdaArn : String) : String :=
  let m := scanMatch lambdaArn.data
  let region := match m with | some g => String.mk g.region | none => ""
  let accountID := match m with | some g => String.mk g.accountID | none => ""
  let functionName := match m with | some g => String.mk g.functionName | none => ""
  "arn:aws:lambda:" ++ region ++ ":" ++ accountID ++ ":function:" ++ functionName

/-- A middleware that appends its label to a shared log and continues;
used to observe execution order. -/
def tagMw (i : String) : Middleware (List String) := fun _ s => (s ++ [i], true)

/-- A terminal handler that appends `H` to a shared log. -/
def tagHandler : Handler (List String) := fun _ s => s ++ ["H"]

/-! ## Helper lemmas -/

theorem insertAux_nil {H M : Type} (m : String) (r : Route H M) (n : Node H M) :
    insertAux m r [] n =
      .mk n.staticChildren n.paramChild n.wildChild (setAssoc m r n.methods) := rfl

theorem insertAux_static {H M : Type} {seg : String} (hW : isWildSeg seg = false)
    (hP : isParamSeg seg = false) (m : String) (r : Route H M) (rest : List String)
    (n : Node H M) :
    insertAux m r (seg :: rest) n =
      .mk (setAssoc seg
            (insertAux m r rest ((lookupAssoc seg n.staticChildren).getD emptyNode))
            n.staticChildren)
        n.paramChild n.wildChild n.methods := by
  simp [insertAux, hW, hP]

theorem insertAux_param_some {H M : Type} {seg nm : String} {c : Node H M}
    (hW : isWildSeg seg = false) (hP : isParamSeg seg = true)
    {n : Node H M} (hp : n.paramChild = some (nm, c)) (m : String) (r : Route H M)
    (rest : List String) :
    insertAux m r (seg :: rest) n =
      .mk n.staticChildren (some (nm, insertAux m r rest c)) n.wildChild n.methods := by
  simp [insertAux, hW, hP, hp]

theorem insertAux_param_none {H M : Type} {seg : String}
    (hW : isWildSeg seg = false) (hP : isParamSeg seg = true)
    {n : Node H M} (hp : n.paramChild = none) (m : String) (r : Route H M)
    (rest : List String) :
    insertAux m r (seg :: rest) n =
      .mk n.staticChildren (some (paramName seg, insertAux m r rest emptyNode))
        n.wildChild n.methods := by
  simp [insertAux, hW, hP, hp]

theorem insertAux_wild {H M : Type} {seg : String} (hW : isWildSeg seg = true)
    (m : String) (r : Route H M) (rest : List String) (n : Node H M) :
    insertAux m r (seg :: rest) n =
      .mk n.staticChildren n.paramChild
        (some (.mk (n.wildChild.getD emptyNode).staticChildren
          (n.wildChild.getD emptyNode).paramChild
          (n.wildChild.getD emptyNode).wildChild
          (setAssoc m r (n.wildChild.getD emptyNode).methods)))
        n.methods := by
  simp [insertAux, hW]

theorem traverse_nil {H M : Type} (n : Node H M) (ps : Params) :
    traverse n [] ps = some (n, ps) := rfl

theorem traverse_static {H M : Type} {seg : String} {n c : Node H M}
    (h : lookupAssoc seg n.staticChildren = some c) (rest : List String) (ps : Params) :
    traverse n (seg :: rest) ps = traverse c rest ps := by
  simp [traverse, h]

theorem traverse_param {H M : Type} {seg nm : String} {n c : Node H M}
    (hs : lookupAssoc seg n.staticChildren = none) (hp : n.paramChild = some (nm, c))
    (rest : List String) (ps : Params) :
    traverse n (seg :: rest) ps = traverse c rest (ps ++ [(nm, seg)]) := by
  simp [traverse, hs, hp]

theorem insertAux_overwrite {H M : Type} (m : String) (r₁ r₂ : Route H M) :
    ∀ (segs : List String) (t : Node H M),
      insertAux m r₂ segs (insertAux m r₁ segs t) = insertAux m r₂ segs t := by
  intro segs
  induction segs with
  | nil =>
    intro t
    obtain ⟨ts, tp, tw, tm⟩ := t
    simp [insertAux, Node.staticChildren, Node.paramChild, Node.wildChild, Node.methods,
      setAssoc_setAssoc_self]
  | cons seg rest ih =>
    intro t
    obtain ⟨ts, tp, tw, tm⟩ := t
    cases hw : isWildSeg seg with
    | true =>
      cases tw with
      | none =>
        simp [insertAux, hw, Node.staticChildren, Node.paramChild, Node.wildChild,
          Node.methods, setAssoc_setAssoc_self]
      | some w =>
        obtain ⟨ws, wp, ww, wm⟩ := w
        simp [insertAux, hw, Node.staticChildren, Node.paramChild, Node.wildChild,
          Node.methods, setAssoc_setAssoc_self]
    | false =>
      cases hp : isParamSeg seg with
      | true =>
        cases tp with
        | none =>
          simp [insertAux, hw, hp, Node.staticChildren, Node.paramChild, Node.wildChild,
            Node.methods, ih]
        | some pc =>
          obtain ⟨nm, c⟩ := pc
          simp [insertAux, hw, hp, Node.staticChildren, Node.paramChild, Node.wildChild,
            Node.methods, ih]
      | false =>
        simp [insertAux, hw, hp, Node.staticChildren, Node.paramChild, Node.wildChild,
          Node.methods, lookupAssoc_setAssoc_self, setAssoc_setAssoc_self, ih]

theorem foldl_Use {S : Type} (l : List (Middleware S)) :
    ∀ r : Router S, l.foldl Router.Use r =
      ⟨r.tree, r.middleware ++ l, r.fallThroughHandler⟩ := by
  induction l with
  | nil => intro r; simp
  | cons mw rest ih => intro r; simp [ih, Router.Use]

theorem runMiddleware_tagMw (l : List String) :
    ∀ (ps : Params) (s : List String), runMiddleware ps s (l.map tagMw) = (s ++ l, true) := by
  induction l with
  | nil => intro ps s; simp [runMiddleware]
  | cons i rest ih => intro ps s; simp [runMiddleware, tagMw, ih]

theorem headersThenBody_append (hs : List (String × String)) (b : String) :
    headersThenBody ((hs.map fun kv => WriteEvent.header kv.1 kv.2) ++
      [WriteEvent.bodyChunk b]) = true := by
  induction hs with
  | nil => rfl
  | cons kv rest ih => simpa [headersThenBody] using ih

/-! ## Claim theorems for the router, pipeline and adapter -/

/-- C1: in a router where both the literal pattern `/users/static` and the
named pattern `/users/:id` are registered (in either order, over any
pre-existing tree), traversing the literal path `/users/static` returns
the node of the literal registration — its method mapping still carries
the literal route — and captures no parameter, so the named-parameter
registration never shadows the literal one. -/
theorem claim_C1 {H M : Type} (t : Node H M) (m₁ m₂ : String) (r₁ r₂ : Route H M) :
    (traverse (insertAux m₂ r₂ (splitPath "/users/:id")
          (insertAux m₁ r₁ (splitPath "/users/static") t))
        (splitPath "/users/static") []).map (fun x => (lookupAssoc m₁ x.1.methods, x.2)) =
      some (some r₁, []) ∧
    (traverse (insertAux m₁ r₁ (splitPath "/users/static")
          (insertAux m₂ r₂ (splitPath "/users/:id") t))
        (splitPath "/users/static") []).map (fun x => (lookupAssoc m₁ x.1.methods, x.2)) =
      some (some r₁, []) := by
  obtain ⟨ts, tp, tw, tm⟩ := t
  constructor
  · rcases hlp : lookupAssoc "users" ts with _ | u
    · simp [splitPath, splitOnSep, insertAux, traverse, isWildSeg, isParamSeg, paramName, hlp,
        lookupAssoc_setAssoc_self, setAssoc_setAssoc_self, Node.staticChildren, Node.paramChild,
        Node.wildChild, Node.methods, emptyNode]
    · obtain ⟨us, up, uw, um⟩ := u
      rcases up with _ | ⟨nm, c⟩ <;>
        simp [splitPath, splitOnSep, insertAux, traverse, isWildSeg, isParamSeg, paramName, hlp,
          lookupAssoc_setAssoc_self, setAssoc_setAssoc_self, Node.staticChildren, Node.paramChild,
          Node.wildChild, Node.methods, emptyNode]
  · rcases hlp : lookupAssoc "users" ts with _ | u
    · rcases tp with _ | ⟨nm, c⟩ <;>
        simp [splitPath, splitOnSep, insertAux, traverse, isWildSeg, isParamSeg, paramName, hlp,
          lookupAssoc_setAssoc_self, setAssoc_setAssoc_self, Node.staticChildren, Node.paramChild,
          Node.wildChild, Node.methods, emptyNode]
    · obtain ⟨us, up, uw, um⟩ := u
      rcases up with _ | ⟨nm, c⟩ <;>
        simp [splitPath, splitOnSep, insertAux, traverse, isWildSeg, isParamSeg, paramName, hlp,
          lookupAssoc_setAssoc_self, setAssoc_setAssoc_self, Node.staticChildren, Node.paramChild,
          Node.wildChild, Node.methods, emptyNode]

/-- C2: after registering `/users/:id` under any method on a fresh tree,
traversing `/users/42` matches that registration — the returned node's
method mapping is exactly the one registration — and captures `id = "42"`;
traversing `/users/42/edit` against the same sole registration returns no
match, so a named segment never absorbs trailing segments. -/
theorem claim_C2 {H M : Type} (m : String) (r : Route H M) :
    (traverse (insertAux m r (splitPath "/users/:id") emptyNode) (splitPath "/users/42") []).map
        (fun x => (x.1.methods, x.2)) = some ([(m, r)], [("id", "42")]) ∧
    traverse (insertAux m r (splitPath "/users/:id") emptyNode)
      (splitPath "/users/42/edit") [] = none :=
  ⟨rfl, rfl⟩

/-- C3: for any middleware chain `[A, B, C]` where `A` always continues
and `B` always halts, the pipeline's result state is exactly `B` applied
after `A` — so `A` then `B` ran, `C` never ran — and the pipeline reports
halt (`false`); running the chain with any terminal handler attached also
ends at `B`'s state, so the handler never runs either. -/
theorem claim_C3 {S : Type} (A B C : Middleware S) (hA : ∀ ps s, (A ps s).2 = true)
    (hB : ∀ ps s, (B ps s).2 = false) (ps : Params) (s : S) :
    runMiddleware ps s [A, B, C] = ((B ps (A ps s).1).1, false) ∧
    ∀ h : Handler S, runChain ps s [A, B, C] h = (B ps (A ps s).1).1 := by
  have h1 : runMiddleware ps s [A, B, C] = ((B ps (A ps s).1).1, false) := by
    simp [runMiddleware, hA, hB]
  exact ⟨h1, fun h => by simp [runChain, h1]⟩

/-- C3 witness: the chain of a logging continue-middleware `A`, a logging
halting middleware `B` and a logging middleware `C` logs exactly
`[A, B]`, reports halt, and never reaches the terminal handler. -/
theorem claim_C3_witness :
    runMiddleware [] ([] : List String)
        [fun _ s => (s ++ ["A"], true), fun _ s => (s ++ ["B"], false),
          fun _ s => (s ++ ["C"], true)] = (["A", "B"], false) ∧
    runChain [] ([] : List String)
        [fun _ s => (s ++ ["A"], true), fun _ s => (s ++ ["B"], false),
          fun _ s => (s ++ ["C"], true)] (fun _ s => s ++ ["H"]) = ["A", "B"] := by
  have h := claim_C3 (S := List String) (fun _ s => (s ++ ["A"], true))
    (fun _ s => (s ++ ["B"], false)) (fun _ s => (s ++ ["C"], true))
    (fun _ _ => rfl) (fun _ _ => rfl) [] []
  exact ⟨h.1, h.2 _⟩

/-- C4: dispatching a matched route executes exactly the global middleware
(appended by `Use`, in registration order) followed by the route's own
middleware (in registration order) and then the terminal handler: with
logging middleware the final log is the global labels, then the route
labels, then the handler's label. -/
theorem claim_C4 (g ρ : List String) (f : Handler (List String)) :
    (((g.map tagMw).foldl Router.Use (NewRouter f)).GET "/path" tagHandler
        (ρ.map tagMw)).dispatch "GET" "/path" [] = .ok (g ++ ρ ++ ["H"]) := by
  rw [foldl_Use]
  simp only [Router.GET, Router.handle, Router.dispatch, NewRouter]
  simp [splitPath, splitOnSep, insertAux, traverse, isWildSeg, isParamSeg, emptyNode,
    Node.staticChildren, Node.paramChild, Node.wildChild, Node.methods, lookupAssoc, setAssoc,
    runChain, ← List.map_append, runMiddleware_tagMw, tagHandler]

/-- C5: when the path matches no registered route, dispatch invokes the
fallthrough handler directly on the request state — no global or route
middleware is applied — and returns that handler's result as a non-error
outcome. -/
theorem claim_C5 {S : Type} (r : Router S) (method p : String) (s : S)
    (h : traverse r.tree (splitPath p) [] = none) :
    r.dispatch method p s = .ok (r.fallThroughHandler [] s) := by
  unfold Router.dispatch
  rw [h]

/-- C5 witness: a fresh router resolves nothing, so dispatch returns the
fallthrough handler's result. -/
theorem claim_C5_witness :
    (NewRouter (fun _ s => "404" :: s)).dispatch "GET" "/nope" [] = .ok ["404"] :=
  claim_C5 _ _ _ _ rfl

/-- C6: registering the same pattern under all seven verbs on a fresh
router and traversing that pattern yields a node whose method mapping has
exactly the seven verbs as keys, in registration order, and no other
key. -/
theorem claim_C6 {S : Type} (f h : Handler S) :
    (traverse ((((((((NewRouter f).GET "/path" h).POST "/path" h).PUT "/path" h).PATCH
          "/path" h).DELETE "/path" h).HEAD "/path" h).OPTIONS "/path" h).tree
        (splitPath "/path") []).map (fun x => (x.1.methods.map Prod.fst, x.2)) =
      some (["GET", "POST", "PUT", "PATCH", "DELETE", "HEAD", "OPTIONS"], []) := rfl

/-- C7: converting a raw request with body `some body to be read`, header
`User-Agent: aegis-test` and query string `foo=bar` yields a structured
request whose body is the literal text, whose single-value header mapping
sends `User-Agent` to `aegis-test`, and whose query-parameter mapping
sends `foo` to `bar`. -/
theorem claim_C7 :
    (requestToProxyRequest
        ⟨"GET", "/", "foo=bar", [("User-Agent", ["aegis-test"])], "some body to be read"⟩).body =
      "some body to be read" ∧
    lookupAssoc "User-Agent"
        (requestToProxyRequest
          ⟨"GET", "/", "foo=bar", [("User-Agent", ["aegis-test"])],
            "some body to be read"⟩).headers =
      some "aegis-test" ∧
    lookupAssoc "foo"
        (requestToProxyRequest
          ⟨"GET", "/", "foo=bar", [("User-Agent", ["aegis-test"])],
            "some body to be read"⟩).queryStringParameters =
      some "bar" := ⟨rfl, rfl, rfl⟩

/-- C8: the response adapter always writes the status code first, then
every header pair, then the body, in that order; replaying the writes of
a structured response with status 200 and header
`Content-Type: application/json` records status 200 and that header. -/
theorem claim_C8 :
    (∀ res : APIGatewayProxyResponse,
      statusHeadersBody (proxyResponseToHTTPResponse res) = true) ∧
    (replayWrites (proxyResponseToHTTPResponse
        ⟨200, [("Content-Type", "application/json")], "", false⟩)).code = 200 ∧
    lookupAssoc "Content-Type"
        (replayWrites (proxyResponseToHTTPResponse
          ⟨200, [("Content-Type", "application/json")], "", false⟩)).headers =
      some "application/json" := by
  refine ⟨fun res => ?_, rfl, rfl⟩
  simp [proxyResponseToHTTPResponse, statusHeadersBody, headersThenBody_append]

/-- C9: registering the same `(method, pattern)` pair twice overwrites the
first registration — inserting `h₁` then `h₂` yields the same tree as
inserting `h₂` alone, so the last registration wins. -/
theorem claim_C9 {H M : Type} (t : Node H M) (m p : String) (h₁ h₂ : H)
    (mw₁ mw₂ : List M) :
    insertAux m ⟨h₂, mw₂⟩ (splitPath p) (insertAux m ⟨h₁, mw₁⟩ (splitPath p) t) =
      insertAux m ⟨h₂, mw₂⟩ (splitPath p) t :=
  insertAux_overwrite m ⟨h₁, mw₁⟩ ⟨h₂, mw₂⟩ (splitPath p) t


theorem takeWhile_all {p : Char → Bool} {l : List Char} (h : ∀ c ∈ l, p c = true) :
    l.takeWhile p = l :=
  List.takeWhile_eq_self_iff.mpr h

theorem takeWhile_stop {p : Char → Bool} {y : Char} (hy : p y = false)
    (xs ys : List Char) : (xs ++ y :: ys).takeWhile p = xs.takeWhile p := by
  induction xs with
  | nil => simp [List.takeWhile_cons, hy]
  | cons x xs' ih =>
    cases hx : p x <;> simp [List.takeWhile_cons, hx, ih]

theorem takeWhile_len_le (p : Char → Bool) (l : List Char) :
    (l.takeWhile p).length ≤ l.length := by
  induction l with
  | nil => simp
  | cons x l' ih =>
    cases hx : p x
    · simp [List.takeWhile_cons, hx]
    · simpa [List.takeWhile_cons, hx] using ih

theorem dropLit_append (lit : List Char) (l : List Char) :
    dropLit lit (lit ++ l) = some l := by
  induction lit with
  | nil => rfl
  | cons c cs ih => simp [dropLit, ih]

theorem dropLit_litFunction_ne {c : Char} (hc : ¬ c = ':') (l : List Char) :
    dropLit litFunction (c :: l) = none := by
  simp [litFunction, dropLit, hc]

theorem dropLit_litFunction_colon_ne {c : Char} (hc : ¬ c = 'f') (l : List Char) :
    dropLit litFunction (':' :: c :: l) = none := by
  simp [litFunction, dropLit, hc]

theorem dropLit_litFunction_nil : dropLit litFunction [] = none := rfl

theorem digit_ne_colon {c : Char} (h : isDigitCh c = true) : ¬ c = ':' := by
  intro hc; subst hc; exact absurd h (by decide)

theorem digit_ne_f {c : Char} (h : isDigitCh c = true) : ¬ c = 'f' := by
  intro hc; subst hc; exact absurd h (by decide)

theorem digit_dot {c : Char} (h : isDigitCh c = true) : isDotCh c = true := by
  simp only [isDotCh, decide_eq_true_eq]
  intro hc; subst hc; exact absurd h (by decide)

theorem class_ne_colon {c : Char} (h : isClassCh c = true) : ¬ c = ':' := by
  intro hc; subst hc; exact absurd h (by decide)

theorem class_dot {c : Char} (h : isClassCh c = true) : isDotCh c = true := by
  simp only [isDotCh, decide_eq_true_eq]
  intro hc; subst hc; exact absurd h (by decide)


theorem phase4_colon_digits {V : List Char} (hne : V ≠ []) (hV : ∀ c ∈ V, isDigitCh c = true) :
    phase4 (':' :: V) = some (':' :: V) := by
  simp only [phase4, if_pos rfl, takeWhile_all hV]
  simp [List.isEmpty_iff, hne]

theorem phase3_success {N V : List Char} (hNne : N ≠ []) (hN : ∀ c ∈ N, isClassCh c = true)
    (hVne : V ≠ []) (hV : ∀ c ∈ V, isDigitCh c = true) :
    phase3 (N ++ ':' :: V) = some (N, ':' :: V) := by
  obtain ⟨n₀, N', rfl⟩ := List.exists_cons_of_ne_nil hNne
  have hstop : (List.takeWhile isClassCh ((n₀ :: N') ++ ':' :: V)) = n₀ :: N' := by
    rw [takeWhile_stop (by decide) (n₀ :: N') V, takeWhile_all hN]
  have hlen : (((n₀ :: N') ++ ':' :: V).takeWhile isClassCh).length = N'.length + 1 := by
    rw [hstop]; simp
  simp only [phase3, hlen, try3]
  have hdrop : ((n₀ :: N') ++ ':' :: V).drop (N'.length + 1) = ':' :: V := by
    have : (n₀ :: N').length = N'.length + 1 := by simp
    rw [← this, List.drop_left]
  have htake : ((n₀ :: N') ++ ':' :: V).take (N'.length + 1) = n₀ :: N' := by
    have : (n₀ :: N').length = N'.length + 1 := by simp
    rw [← this, List.take_left]
  rw [hdrop, phase4_colon_digits hVne hV, htake]

theorem try2_none {l : List Char} :
    ∀ k : Nat, (∀ d, 1 ≤ d → d ≤ k → dropLit litFunction (l.drop d) = none) →
      try2 l k = none := by
  intro k
  induction k with
  | zero => intro _; rfl
  | succ k ih =>
    intro h
    simp only [try2]
    rw [h (k + 1) (by omega) (le_refl _)]
    exact ih (fun d h1 h2 => h d h1 (by omega))

theorem phase2_no_digit {l : List Char} (h : l.takeWhile isDigitCh = []) :
    phase2 l = none := by
  simp only [phase2, h, List.length_nil]
  rfl

theorem phase2_N_colon_V {N V : List Char} (hN : ∀ c ∈ N, isClassCh c = true)
    {v : Char} {V' : List Char} (hV : V = v :: V') (hv : isDigitCh v = true) :
    phase2 (N ++ ':' :: V) = none := by
  have hstop : (N ++ ':' :: V).takeWhile isDigitCh = N.takeWhile isDigitCh :=
    takeWhile_stop (by decide) N V
  simp only [phase2, hstop]
  apply try2_none
  intro d h1 h2
  have hdN : d ≤ N.length := le_trans h2 (takeWhile_len_le _ _)
  rw [List.drop_append_of_le_length hdN]
  rcases hnd : N.drop d with _ | ⟨c, tl⟩
  · subst hV
    simp only [List.nil_append]
    exact dropLit_litFunction_colon_ne (digit_ne_f hv) V'
  · have hc : c ∈ N := (List.drop_suffix d N).subset (hnd ▸ List.mem_cons_self c tl)
    exact dropLit_litFunction_ne (class_ne_colon (hN c hc)) _

theorem phase2_digits {V : List Char} (hV : ∀ c ∈ V, isDigitCh c = true) :
    phase2 V = none := by
  simp only [phase2, takeWhile_all hV]
  apply try2_none
  intro d h1 h2
  rcases hnd : V.drop d with _ | ⟨c, tl⟩
  · exact dropLit_litFunction_nil
  · have hc : c ∈ V := (List.drop_suffix d V).subset (hnd ▸ List.mem_cons_self c tl)
    exact dropLit_litFunction_ne (digit_ne_colon (hV c hc)) _


theorem phase2_success {A N V : List Char} (hAne : A ≠ []) (hA : ∀ c ∈ A, isDigitCh c = true)
    (hNne : N ≠ []) (hN : ∀ c ∈ N, isClassCh c = true)
    (hVne : V ≠ []) (hV : ∀ c ∈ V, isDigitCh c = true) :
    phase2 (A ++ litFunction ++ (N ++ ':' :: V)) = some (A, N, ':' :: V) := by
  obtain ⟨a₀, A', rfl⟩ := List.exists_cons_of_ne_nil hAne
  have hshape : (a₀ :: A') ++ litFunction ++ (N ++ ':' :: V) =
      (a₀ :: A') ++ ':' :: (litFunction.tail ++ (N ++ ':' :: V)) := by
    simp [litFunction]
  have hstop : ((a₀ :: A') ++ litFunction ++ (N ++ ':' :: V)).takeWhile isDigitCh = a₀ :: A' := by
    rw [hshape, takeWhile_stop (by decide) _ _, takeWhile_all hA]
  have hlen : (((a₀ :: A') ++ litFunction ++ (N ++ ':' :: V)).takeWhile isDigitCh).length =
      A'.length + 1 := by rw [hstop]; simp
  simp only [phase2, hlen, try2]
  have hLlen : (a₀ :: A').length = A'.length + 1 := by simp
  have hdrop : ((a₀ :: A') ++ litFunction ++ (N ++ ':' :: V)).drop (A'.length + 1) =
      litFunction ++ (N ++ ':' :: V) := by
    rw [List.append_assoc, ← hLlen, List.drop_left]
  have htake : ((a₀ :: A') ++ litFunction ++ (N ++ ':' :: V)).take (A'.length + 1) =
      a₀ :: A' := by
    rw [List.append_assoc, ← hLlen, List.take_left]
  simp only [hdrop, dropLit_append, phase3_success hNne hN hVne hV, htake]

theorem colon_suffix : ∀ (xs : List Char), (∀ c ∈ xs, ¬ c = ':') →
    ∀ (ys t : List Char), (':' :: t) <:+ (xs ++ ys) → (':' :: t) <:+ ys := by
  intro xs
  induction xs with
  | nil => intro _ ys t h; simpa using h
  | cons x xs' ih =>
    intro hx ys t h
    rw [List.cons_append] at h
    rcases List.suffix_cons_iff.mp h with heq | hsuf
    · exfalso
      have hx' : x = ':' := by
        have := heq
        injection this with h1 _
        exact h1.symm
      exact hx x (List.mem_cons_self _ _) hx'
    · exact ih (fun c hc => hx c (List.mem_cons_of_mem _ hc)) ys t hsuf

theorem colon_suffix_phase2_none {A N V : List Char}
    (hA : ∀ c ∈ A, isDigitCh c = true) (hN : ∀ c ∈ N, isClassCh c = true)
    (hVne : V ≠ []) (hV : ∀ c ∈ V, isDigitCh c = true) :
    ∀ rest, (':' :: rest) <:+ (A ++ litFunction ++ (N ++ ':' :: V)) →
      phase2 rest = none := by
  intro rest h
  obtain ⟨v, V', rfl⟩ := List.exists_cons_of_ne_nil hVne
  have hv : isDigitCh v = true := hV v (List.mem_cons_self _ _)
  have hshape : A ++ litFunction ++ (N ++ ':' :: (v :: V')) =
      A ++ ':' :: (['f', 'u', 'n', 'c', 't', 'i', 'o', 'n'] ++
        ':' :: (N ++ ':' :: (v :: V'))) := by
    simp [litFunction]
  rw [hshape] at h
  have h1 := colon_suffix A (fun c hc => digit_ne_colon (hA c hc)) _ _ h
  rcases List.suffix_cons_iff.mp h1 with heq | h2
  · injection heq with _ h1b
    subst h1b
    refine phase2_no_digit ?_
    simp only [List.cons_append]
    rw [List.takeWhile_cons, if_neg (by decide)]
  · have h3 := colon_suffix ['f', 'u', 'n', 'c', 't', 'i', 'o', 'n'] (by decide) _ _ h2
    rcases List.suffix_cons_iff.mp h3 with heq | h4
    · injection heq with _ h3b
      subst h3b
      exact phase2_N_colon_V hN rfl hv
    · have h5 := colon_suffix N (fun c hc => class_ne_colon (hN c hc)) _ _ h4
      rcases List.suffix_cons_iff.mp h5 with heq | h6
      · injection heq with _ h5b
        subst h5b
        exact phase2_digits hV
      · exfalso
        have h7 := colon_suffix (v :: V') (fun c hc => digit_ne_colon (hV c hc)) [] rest
          (by simpa using h6)
        have := List.suffix_nil.mp h7
        exact List.cons_ne_nil _ _ this


theorem step1_some_iff {l : List Char} {k : Nat} {rest : List Char} :
    step1 l k = some rest ↔ l.drop k = ':' :: rest := by
  unfold step1
  rcases hd : l.drop k with _ | ⟨c, tl⟩
  · simp
  · by_cases hc : c = ':'
    · subst hc; simp
    · simp [hc, Ne.symm hc]

theorem try1_succ_skip {l : List Char} {k : Nat}
    (h : ∀ rest, step1 l (k + 1) = some rest → phase2 rest = none) :
    try1 l (k + 1) = try1 l k := by
  simp only [try1]
  rcases hs : step1 l (k + 1) with _ | rest
  · rfl
  · simp only [h rest hs]

theorem try1_skip_to {l : List Char} :
    ∀ (k m : Nat), m ≤ k →
      (∀ j rest, m < j → j ≤ k → step1 l j = some rest → phase2 rest = none) →
      try1 l k = try1 l m := by
  intro k
  induction k with
  | zero =>
    intro m hm _
    have : m = 0 := Nat.le_zero.mp hm
    rw [this]
  | succ k ih =>
    intro m hm hf
    rcases Nat.eq_or_lt_of_le hm with heq | hlt
    · rw [heq]
    · have hmk : m ≤ k := Nat.lt_succ_iff.mp hlt
      have hstep : try1 l (k + 1) = try1 l k :=
        try1_succ_skip (fun rest hs => hf (k + 1) rest (by omega) (le_refl _) hs)
      rw [hstep]
      exact ih m hmk (fun j rest h1 h2 hs => hf j rest h1 (Nat.le_succ_of_le h2) hs)


theorem litFunction_dot : ∀ c ∈ litFunction, isDotCh c = true := by decide

theorem scanMatch_cons {c : Char} {tl : List Char} {g : ArnGroups}
    (h : matchHere (c :: tl) = some g) : scanMatch (c :: tl) = some g := by
  simp only [scanMatch, h]

theorem scanMatch_arn (R A N V : List Char)
    (hRne : R ≠ []) (hR : ∀ c ∈ R, ¬ c = ':' ∧ ¬ c = '\n')
    (hAne : A ≠ []) (hA : ∀ c ∈ A, isDigitCh c = true)
    (hNne : N ≠ []) (hN : ∀ c ∈ N, isClassCh c = true)
    (hVne : V ≠ []) (hV : ∀ c ∈ V, isDigitCh c = true) :
    scanMatch (litArn ++ (R ++ ':' :: (A ++ litFunction ++ (N ++ ':' :: V)))) =
      some ⟨R, A, N, ':' :: V⟩ := by
  set l₂ : List Char := A ++ litFunction ++ (N ++ ':' :: V) with hl₂
  set l₁ : List Char := R ++ ':' :: l₂ with hl₁
  -- every character of l₁ is matched by `.`
  have hdot : ∀ c ∈ l₁, isDotCh c = true := by
    intro c hc
    rw [hl₁] at hc
    rcases List.mem_append.mp hc with hcR | hc2
    · simp only [isDotCh, decide_eq_true_eq]; exact (hR c hcR).2
    · rcases List.mem_cons.mp hc2 with rfl | hc3
      · decide
      · rw [hl₂] at hc3
        rcases List.mem_append.mp hc3 with hc4 | hc5
        · rcases List.mem_append.mp hc4 with hcA | hcL
          · exact digit_dot (hA c hcA)
          · exact litFunction_dot c hcL
        · rcases List.mem_append.mp hc5 with hcN | hc6
          · exact class_dot (hN c hcN)
          · rcases List.mem_cons.mp hc6 with rfl | hcV
            · decide
            · exact digit_dot (hV c hcV)
  have hdotrun : l₁.takeWhile isDotCh = l₁ := takeWhile_all hdot
  -- the maximal `.+` run is the whole remainder
  have hmatch : matchHere (litArn ++ l₁) = try1 l₁ l₁.length := by
    simp only [matchHere, dropLit_append, hdotrun]
  -- l₂ is what follows position |R| + 1
  have hdropR1 : l₁.drop (R.length + 1) = l₂ := by
    have hsh : l₁ = (R ++ [':']) ++ l₂ := by simp [hl₁]
    have hlen : (R ++ [':']).length = R.length + 1 := by simp
    rw [hsh, ← hlen, List.drop_left]
  -- all greedier `.+` runs fail
  have hskip : try1 l₁ l₁.length = try1 l₁ R.length := by
    apply try1_skip_to _ _ (by simp only [hl₁, List.length_append, List.length_cons]; omega)
    intro j rest hj _ hs
    have hd := step1_some_iff.mp hs
    have hdj : l₂.drop (j - (R.length + 1)) = l₁.drop j := by
      rw [← hdropR1, List.drop_drop]
      congr 1
      omega
    have hsuf : (':' :: rest) <:+ l₂ := by
      rw [hd] at hdj
      exact hdj ▸ List.drop_suffix _ l₂
    exact colon_suffix_phase2_none hA hN hVne hV rest hsuf
  -- the run of length |R| succeeds with the claimed groups
  have hsucc : try1 l₁ R.length = some ⟨R, A, N, ':' :: V⟩ := by
    obtain ⟨r₀, R', rfl⟩ := List.exists_cons_of_ne_nil hRne
    have hRlen : (r₀ :: R').length = R'.length + 1 := by simp
    have hstep : step1 l₁ (R'.length + 1) = some l₂ := by
      apply step1_some_iff.mpr
      rw [← hRlen, hl₁, List.drop_left]
    have htake : l₁.take (R'.length + 1) = r₀ :: R' := by
      rw [← hRlen, hl₁, List.take_left]
    rw [hRlen]
    simp only [try1, hstep, phase2_success hAne hA hNne hN hVne hV, htake]
  -- the scan hits the pattern at position zero
  have hne : litArn ++ l₁ = 'a' :: (litArn.tail ++ l₁) := by simp [litArn]
  rw [hne]
  apply scanMatch_cons
  rw [← List.cons_append,
    show ('a' :: litArn.tail : List Char) = litArn from rfl, hmatch, hskip, hsucc]


/-- C10: `stripLamdaVersionFromArn` always returns
`arn:aws:lambda:` ++ region ++ `:` ++ accountID ++ `:function:` ++ name
built from the regex capture groups: when the input is a Lambda ARN with a
trailing `:N` version qualifier (region free of `:` and newline, digits
account, class-charset name, digits version) the result is the input with
the version suffix removed; when the input does not match the pattern at
all, every component is empty and the result is the degenerate constant
`arn:aws:lambda:::function:`, not the input unchanged. -/
theorem claim_C10 :
    (∀ (s : String) (g : ArnGroups), scanMatch s.data = some g →
      stripLamdaVersionFromArn s =
        "arn:aws:lambda:" ++ String.mk g.region ++ ":" ++ String.mk g.accountID ++
          ":function:" ++ String.mk g.functionName) ∧
    (∀ R A N V : String,
      R.data ≠ [] → (∀ c ∈ R.data, ¬ c = ':' ∧ ¬ c = '\n') →
      A.data ≠ [] → (∀ c ∈ A.data, isDigitCh c = true) →
      N.data ≠ [] → (∀ c ∈ N.data, isClassCh c = true) →
      V.data ≠ [] → (∀ c ∈ V.data, isDigitCh c = true) →
      stripLamdaVersionFromArn
          ("arn:aws:lambda:" ++ R ++ ":" ++ A ++ ":function:" ++ N ++ ":" ++ V) =
        "arn:aws:lambda:" ++ R ++ ":" ++ A ++ ":function:" ++ N) ∧
    (∀ s : String, scanMatch s.data = none →
      stripLamdaVersionFromArn s = "arn:aws:lambda:::function:") := by
  refine ⟨?_, ?_, ?_⟩
  · intro s g h
    simp only [stripLamdaVersionFromArn, h]
  · intro R A N V hRne hR hAne hA hNne hN hVne hV
    have hdata : ("arn:aws:lambda:" ++ R ++ ":" ++ A ++ ":function:" ++ N ++ ":" ++ V).data =
        litArn ++ (R.data ++ ':' :: (A.data ++ litFunction ++ (N.data ++ ':' :: V.data))) := by
      simp only [String.data_append]
      simp [litArn, litFunction, List.append_assoc]
    have hscan := scanMatch_arn R.data A.data N.data V.data hRne hR hAne hA hNne hN hVne hV
    simp only [stripLamdaVersionFromArn, hdata, hscan]
  · intro s h
    simp only [stripLamdaVersionFromArn, h]
    rfl

/-- C10 witness: the three clauses of `claim_C10` instantiated — a
matching ARN rebuilt from its groups, a well-formed versioned ARN with the
version stripped, and a non-matching input collapsing to the degenerate
constant. -/
theorem claim_C10_witness :
    stripLamdaVersionFromArn "arn:aws:lambda:r:1:function:f:2" =
      "arn:aws:lambda:" ++ String.mk ['r'] ++ ":" ++ String.mk ['1'] ++ ":function:" ++
        String.mk ['f'] ∧
    stripLamdaVersionFromArn
        ("arn:aws:lambda:" ++ "us-east-1" ++ ":" ++ "1234567890" ++ ":function:" ++
          "aegis_example" ++ ":" ++ "1") =
      "arn:aws:lambda:" ++ "us-east-1" ++ ":" ++ "1234567890" ++ ":function:" ++
        "aegis_example" ∧
    stripLamdaVersionFromArn "hello" = "arn:aws:lambda:::function:" :=
  ⟨claim_C10.1 "arn:aws:lambda:r:1:function:f:2" ⟨['r'], ['1'], ['f'], [':', '2']⟩ (by decide),
   claim_C10.2.1 "us-east-1" "1234567890" "aegis_example" "1" (by decide) (by decide)
     (by decide) (by decide) (by decide) (by decide) (by decide) (by decide),
   claim_C10.2.2 "hello" (by decide)⟩

end Aegis
